import Mathlib

/-!
# Verification of the Whisper transcription orchestration core

A shallow embedding, in Lean 4, of the pure computational content of the
repository's Python sources (`utils.py`, `transcriber.py`, `main.py`), together
with theorems settling the specification claims about them.

Conventions used throughout the embedding:
* Python floats are modelled as rationals (`ℚ`); `int(x)` is truncation toward
  zero (`pyint`), `x // y` is floor division and `x % y` is Python's modulo
  (`pymod`), which returns a value with the sign of the divisor.
* Python dictionaries become structures; a key that may be absent becomes an
  `Option` field.
* Python strings are handled through their character lists (`String.data`), and
  the decimal rendering of `f"{n}"` / `f"{n:02d}"` is `natChars` / `padInt`.
-/

/-- Truncation toward zero, the semantics of Python's `int()` on a float. -/
def pyint (q : ℚ) : ℤ := if q < 0 then ⌈q⌉ else ⌊q⌋

/-- Python's `%` on floats: `a % b = a - b * (a // b)`, where `//` is floor
division.  For `b > 0` the result lies in `[0, b)` whatever the sign of `a`. -/
def pymod (a b : ℚ) : ℚ := a - b * ⌊a / b⌋

/-- The character for a decimal digit `d < 10`. -/
def digitChar (d : Nat) : Char := Char.ofNat (48 + d)

/-- Decimal digits of a natural number, most significant first; the semantics
of Python's `str(n)` / `f"{n}"` for `n ≥ 0`. -/
def natChars (n : Nat) : List Char :=
  if _h : n < 10 then [digitChar n] else natChars (n / 10) ++ [digitChar (n % 10)]
termination_by n
decreasing_by exact Nat.div_lt_self (by omega) (by omega)

/-- Zero padding to width `w`, the semantics of Python's `f"{n:0wd}"` for
`n ≥ 0`. -/
def padNat (w : Nat) (n : Nat) : List Char :=
  List.replicate (w - (natChars n).length) '0' ++ natChars n

/-- Zero padding of a possibly negative integer, as Python's `f"{n:0wd}"`:
the sign counts toward the width and the zeros come after it. -/
def padInt (w : Nat) (n : ℤ) : List Char :=
  if n < 0 then '-' :: padNat (w - 1) n.natAbs else padNat w n.natAbs

/-- Lowercasing of a string, as Python's `str.lower()` (restricted to the
alphabets the validator compares against). -/
def pyLower (s : String) : String := ⟨s.data.map Char.toLower⟩

/-! ## utils.py -/

/-- `utils.SUPPORTED_AUDIO_TYPES`: the MIME-type → extensions dictionary, in
source order. -/
def SUPPORTED_AUDIO_TYPES : List (String × List String) :=
  [("audio/mpeg", [".mp3"]),
   ("audio/wav", [".wav"]),
   ("audio/x-wav", [".wav"]),
   ("audio/mp4", [".m4a"]),
   ("audio/x-m4a", [".m4a"]),
   ("audio/aac", [".aac"]),
   ("audio/ogg", [".ogg"]),
   ("audio/flac", [".flac"]),
   ("audio/webm", [".webm"]),
   ("video/mp4", [".mp4"]),
   ("video/mpeg", [".mpeg", ".mpg"]),
   ("video/quicktime", [".mov"]),
   ("video/webm", [".webm"]),
   ("video/x-msvideo", [".avi"])]

/-- The keys of `SUPPORTED_AUDIO_TYPES` (what `mime_type in SUPPORTED_AUDIO_TYPES`
tests in Python). -/
def supported_mime_types : List String := SUPPORTED_AUDIO_TYPES.map Prod.fst

/-- The flattened extension list that `validate_audio_file` builds by extending
over `SUPPORTED_AUDIO_TYPES.values()`. -/
def supported_extensions : List String := (SUPPORTED_AUDIO_TYPES.map Prod.snd).flatten

/-- `utils.MAX_FILE_SIZE_MB`. -/
def MAX_FILE_SIZE_MB : ℚ := 500

/-- `utils.MIN_FILE_SIZE_KB`. -/
def MIN_FILE_SIZE_KB : ℚ := 1

/-- The executable-like extension denylist from `validate_audio_file`. -/
def blocked_extensions : List String := [".exe", ".bat", ".sh", ".scr", ".com", ".pif"]

/-- A Streamlit upload descriptor as `validate_audio_file` reads it: `name`,
`size` (bytes) and the browser-reported MIME `type` (possibly absent). -/
structure UploadedFile where
  name : String
  size : ℚ
  type : Option String := none
deriving DecidableEq

/-- The `{"valid": ..., "error": ...}` dictionary returned by
`validate_audio_file`. -/
structure ValidationResult where
  valid : Bool
  error : Option String := none
deriving DecidableEq

/-- Splitting a character list at every `/`, the component reading that
`pathlib` parsing starts from. -/
def splitOnSlashAux (acc : List Char) : List Char → List (List Char)
  | [] => [acc.reverse]
  | c :: cs =>
    if c = '/' then acc.reverse :: splitOnSlashAux [] cs
    else splitOnSlashAux (c :: acc) cs

/-- The last path component, as `pathlib.PurePosixPath(name).name`: pathlib
drops empty components (doubled or trailing slashes) and `.` components while
parsing and keeps `..`, so the name is the last remaining component, empty
when none remains. -/
def pyBasename (l : List Char) : List Char :=
  (((splitOnSlashAux [] l).filter
      (fun comp => decide (comp ≠ [] ∧ comp ≠ ['.']))).getLast?).getD []

/-- The extension of a file name, as `pathlib.PurePath.suffix`: the part from
the last dot on, provided that dot is neither the first nor the last character
of the base name; otherwise the empty string. -/
def suffixOfBase (base : List Char) : List Char :=
  let rev := base.reverse
  let post := rev.takeWhile (fun c => c ≠ '.')
  let rest := rev.drop post.length
  match rest with
  | [] => []
  | _ :: pre => if pre = [] then [] else if post = [] then [] else '.' :: post.reverse

/-- `pathlib.Path(name).suffix`. -/
def pySuffix (name : String) : String := ⟨suffixOfBase (pyBasename name.data)⟩

/-- `utils.validate_audio_file`, translated check for check: presence, name,
size bounds, MIME membership, extension membership, executable denylist. -/
def validate_audio_file (uploaded_file : Option UploadedFile) : ValidationResult :=
  match uploaded_file with
  | none => ⟨false, some "Nenhum arquivo foi carregado"⟩
  | some f =>
    if f.name = "" then ⟨false, some "Nome do arquivo está vazio"⟩
    else
      let file_size_mb := f.size / (1024 * 1024)
      let file_size_kb := f.size / 1024
      if file_size_kb < MIN_FILE_SIZE_KB then
        ⟨false, some "Arquivo muito pequeno (mínimo: 1KB)"⟩
      else if file_size_mb > MAX_FILE_SIZE_MB then
        ⟨false, some "Arquivo muito grande (máximo: 500MB)"⟩
      else
        let mime_type := f.type.getD ""
        if mime_type ≠ "" ∧ mime_type ∉ supported_mime_types then
          ⟨false, some ("Tipo de arquivo não suportado: " ++ mime_type)⟩
        else
          let file_extension := pyLower (pySuffix f.name)
          if file_extension ≠ "" ∧ file_extension ∉ supported_extensions then
            ⟨false, some ("Extensão não suportada: " ++ file_extension)⟩
          else if file_extension ∈ blocked_extensions then
            ⟨false, some "Tipo de arquivo não permitido por segurança"⟩
          else ⟨true, none⟩

/-- `utils.format_time`: `HH:MM:SS` via integer `divmod`, with negative input
clamped to `"00:00:00"`. -/
def format_time (seconds : ℚ) : String :=
  if seconds < 0 then "00:00:00"
  else
    let t := pyint seconds
    let hours := t / 3600
    let remainder := t % 3600
    let minutes := remainder / 60
    let secs := remainder % 60
    ⟨padInt 2 hours ++ ':' :: padInt 2 minutes ++ ':' :: padInt 2 secs⟩

/-- The advanced-options dictionary: every key optional, read with `.get`
defaults at each use site. -/
structure AdvancedOptions where
  temperature : Option ℚ := none
  beam_size : Option ℤ := none
  confidence_threshold : Option ℚ := none
  quality_preset : Option String := none
deriving DecidableEq

/-- The clamped dictionary produced by `utils.validate_advanced_options`. -/
structure ValidatedOptions where
  temperature : ℚ
  beam_size : ℤ
  confidence_threshold : ℚ
  quality_preset : String
deriving DecidableEq

/-- `utils.validate_advanced_options`: clamp `temperature` to `[0,1]`,
`beam_size` to `[1,10]`, `confidence_threshold` to `[0,1]`, and replace an
unknown `quality_preset` name by `"balanced"`. -/
def validate_advanced_options (options : AdvancedOptions) : ValidatedOptions :=
  { temperature := max 0 (min 1 (options.temperature.getD 0)),
    beam_size := max 1 (min 10 (options.beam_size.getD 3)),
    confidence_threshold := max 0 (min 1 (options.confidence_threshold.getD (1/2))),
    quality_preset :=
      let quality_preset := options.quality_preset.getD "balanced"
      if quality_preset ∉ ["fast", "balanced", "high_quality"] then "balanced"
      else quality_preset }

/-! ## transcriber.py -/

/-- One decoding-parameter bundle from `transcriber.QUALITY_PRESETS`. -/
structure QualityPreset where
  beam_size : Nat
  best_of : Nat
  temperature : ℚ
  compression_ratio_threshold : ℚ
  logprob_threshold : ℚ
  no_speech_threshold : ℚ
deriving DecidableEq

/-- The `"fast"` preset. -/
def fastPreset : QualityPreset :=
  { beam_size := 1, best_of := 1, temperature := 0,
    compression_ratio_threshold := 2.4, logprob_threshold := -1.0,
    no_speech_threshold := 0.6 }

/-- The `"balanced"` preset. -/
def balancedPreset : QualityPreset :=
  { beam_size := 3, best_of := 3, temperature := 0,
    compression_ratio_threshold := 2.0, logprob_threshold := -0.5,
    no_speech_threshold := 0.5 }

/-- The `"high_quality"` preset. -/
def highQualityPreset : QualityPreset :=
  { beam_size := 5, best_of := 5, temperature := 0,
    compression_ratio_threshold := 1.8, logprob_threshold := -0.3,
    no_speech_threshold := 0.4 }

/-- `transcriber.QUALITY_PRESETS` as a keyed lookup. -/
def QUALITY_PRESETS (name : String) : Option QualityPreset :=
  if name = "fast" then some fastPreset
  else if name = "balanced" then some balancedPreset
  else if name = "high_quality" then some highQualityPreset
  else none

/-- The preset resolution inside `transcriber.transcribe_audio`:
`quality_preset = advanced_options.get("quality_preset", "balanced")` followed by
`QUALITY_PRESETS.get(quality_preset, QUALITY_PRESETS["balanced"])`. -/
def preset_config (advanced_options : AdvancedOptions) : QualityPreset :=
  let quality_preset := advanced_options.quality_preset.getD "balanced"
  (QUALITY_PRESETS quality_preset).getD balancedPreset

/-- `transcriber.load_whisper_model`, with the external `whisper.load_model`
capability abstracted as `load`: try the requested size; on failure fall back
to `"tiny"` unless `"tiny"` was already the request, in which case the original
exception is re-raised.  The fallback call is not itself guarded. -/
def load_whisper_model {α : Type} (load : String → Except String α)
    (model_size : String) : Except String α :=
  match load model_size with
  | Except.ok model => Except.ok model
  | Except.error e => if model_size ≠ "tiny" then load "tiny" else Except.error e

/-- One word of a Whisper segment; `probability` may be absent. -/
structure Word where
  word : String := ""
  probability : Option ℚ := none
deriving DecidableEq

/-- One Whisper segment: `start`/`end` times, raw `text`, the optional
word-timestamp list, and the `confidence` key that
`filter_segments_by_confidence` may add. -/
structure Segment where
  start : ℚ
  «end» : ℚ
  text : String := ""
  words : Option (List Word) := none
  confidence : Option ℚ := none
deriving DecidableEq

/-- The raw output dictionary of `model.transcribe` as the enrichment reads it;
the defensive `"segments" in result` check makes the key an `Option`. -/
structure RawResult where
  segments : Option (List Segment) := none
deriving DecidableEq

/-- The `audio_characteristics` dictionary built by
`analyze_audio_characteristics`. -/
structure AudioCharacteristics where
  speech_rate : String
  has_silence : Bool
  language_confidence : String
  audio_quality : String
deriving DecidableEq

/-- The enriched result of `enhance_transcription_result`: keys that the code
only sets on some paths are `Option` fields. -/
structure EnrichedResult where
  processing_time : ℚ
  processing_time_formatted : String
  average_confidence : Option ℚ := none
  audio_duration : Option ℚ := none
  audio_duration_formatted : Option String := none
  processing_speed_ratio : Option ℚ := none
  realtime_factor : Option ℚ := none
  segments : Option (List Segment) := none
  filtered_segments_count : Option Nat := none
  audio_characteristics : AudioCharacteristics
deriving DecidableEq

/-- The confidence accumulation loop of `enhance_transcription_result`:
`(total_confidence, confidence_count)` summed over every word probability
present in any segment. -/
def sumCount (segments : List Segment) : ℚ × Nat :=
  segments.foldl
    (fun acc segment =>
      match segment.words with
      | some words =>
        words.foldl
          (fun acc2 word =>
            match word.probability with
            | some p => (acc2.1 + p, acc2.2 + 1)
            | none => acc2)
          acc
      | none => acc)
    (0, 0)

/-- The per-segment confidence used by `filter_segments_by_confidence`: the
mean of the segment's own word probabilities, each defaulting to `0.5` when
absent, and `0.5` overall when the segment has no word list or an empty one. -/
def segmentConfidence (segment : Segment) : ℚ :=
  match segment.words with
  | some words =>
    let word_confidences := words.map (fun word => word.probability.getD (1/2))
    if word_confidences ≠ [] then word_confidences.sum / word_confidences.length
    else 1/2
  | none => 1/2

/-- `transcriber.filter_segments_by_confidence`: keep the segments whose
confidence meets the threshold, writing the computed confidence into each kept
segment. -/
def filter_segments_by_confidence (segments : List Segment) (threshold : ℚ) :
    List Segment :=
  match segments with
  | [] => []
  | segment :: rest =>
    let segment_confidence := segmentConfidence segment
    if segment_confidence ≥ threshold then
      { segment with confidence := some segment_confidence } ::
        filter_segments_by_confidence rest threshold
    else filter_segments_by_confidence rest threshold

/-- The word count of a text, as `len(text.split())`: maximal runs of
non-whitespace characters. -/
def countWordsAux (inWord : Bool) (l : List Char) : Nat :=
  match l with
  | [] => 0
  | c :: cs =>
    if c.isWhitespace then countWordsAux false cs
    else (if inWord then 0 else 1) + countWordsAux true cs

/-- `len(text.split())` for a string. -/
def countWords (s : String) : Nat := countWordsAux false s.data

/-- The adjacent-gap scan of `analyze_audio_characteristics`: true when some
consecutive pair has `next.start - prev.end > 3.0`. -/
def hasLongGap (segments : List Segment) : Bool :=
  match segments with
  | s1 :: s2 :: rest => (3 < s2.start - s1.«end») || hasLongGap (s2 :: rest)
  | _ => false

/-- `transcriber.analyze_audio_characteristics`, as a function of the keys it
reads from the partially enriched result: the (already filtered) segment list,
`audio_duration` (read with default `0`) and `average_confidence` (read with
default `0.5`).  All four characteristics keep their defaults when the segment
list is absent or empty. -/
def analyze_audio_characteristics (segments : Option (List Segment))
    (audio_duration : Option ℚ) (average_confidence : Option ℚ) :
    AudioCharacteristics :=
  let base : AudioCharacteristics :=
    { speech_rate := "normal", has_silence := false,
      language_confidence := "medium", audio_quality := "good" }
  match segments with
  | some segs =>
    if segs ≠ [] then
      let total_words := (segs.map (fun segment => countWords segment.text)).sum
      let total_duration := audio_duration.getD 0
      let speech_rate :=
        if 0 < total_duration then
          let words_per_minute := ((total_words : ℚ) / total_duration) * 60
          if words_per_minute < 120 then "slow"
          else if 180 < words_per_minute then "fast"
          else "normal"
        else "normal"
      let avg_confidence := average_confidence.getD (1/2)
      let language_confidence :=
        if 0.8 < avg_confidence then "high"
        else if avg_confidence < 0.4 then "low"
        else "medium"
      let audio_quality :=
        if 0.7 < avg_confidence then "excellent"
        else if 0.5 < avg_confidence then "good"
        else if 0.3 < avg_confidence then "fair"
        else "poor"
      { speech_rate := speech_rate, has_silence := hasLongGap segs,
        language_confidence := language_confidence, audio_quality := audio_quality }
    else base
  | none => base

/-- `transcriber.enhance_transcription_result`: attach timing metadata and,
when the `segments` key is present, the average confidence, the audio duration
(only for a nonempty list), the speed metrics (only for a positive duration),
and the optional confidence filtering; finally run the characteristics
analysis on the resulting dictionary. -/
def enhance_transcription_result (result : RawResult) (processing_time : ℚ)
    (advanced_options : AdvancedOptions) : EnrichedResult :=
  match result.segments with
  | none =>
    { processing_time := processing_time,
      processing_time_formatted := format_time processing_time,
      audio_characteristics := analyze_audio_characteristics none none none }
  | some segments =>
    let (total_confidence, confidence_count) := sumCount segments
    let average_confidence : ℚ :=
      if 0 < confidence_count then total_confidence / confidence_count else 1/2
    let audio_duration : Option ℚ := segments.getLast?.map (fun s => s.«end»)
    let ad := audio_duration.getD 0
    let speed_ratio : Option ℚ :=
      if 0 < ad then some (processing_time / ad) else none
    let realtime : Option ℚ :=
      if 0 < ad then some (ad / processing_time) else none
    let confidence_threshold := advanced_options.confidence_threshold.getD 0
    let final_segments :=
      if 0 < confidence_threshold then
        filter_segments_by_confidence segments confidence_threshold
      else segments
    let filtered_count : Option Nat :=
      if 0 < confidence_threshold then some final_segments.length else none
    { processing_time := processing_time,
      processing_time_formatted := format_time processing_time,
      average_confidence := some average_confidence,
      audio_duration := audio_duration,
      audio_duration_formatted := audio_duration.map format_time,
      processing_speed_ratio := speed_ratio,
      realtime_factor := realtime,
      segments := some final_segments,
      filtered_segments_count := filtered_count,
      audio_characteristics :=
        analyze_audio_characteristics (some final_segments) audio_duration
          (some average_confidence) }

/-- The device profile dictionary built by `transcriber.optimize_for_device`. -/
structure DeviceConfig where
  device : String
  recommended_models : List String
  max_file_size_mb : Nat
  parallel_processing : Bool
deriving DecidableEq

/-- `transcriber.optimize_for_device`, as a function of the module-level
`DEVICE` string and the queried GPU memory (in GB, unused on the CPU path). -/
def optimize_for_device (DEVICE : String) (gpu_memory : ℚ) : DeviceConfig :=
  let config : DeviceConfig :=
    { device := DEVICE, recommended_models := [], max_file_size_mb := 100,
      parallel_processing := false }
  if DEVICE = "cuda" then
    if 8 ≤ gpu_memory then
      { config with recommended_models := ["medium", "large-v2"],
                    max_file_size_mb := 500, parallel_processing := true }
    else if 4 ≤ gpu_memory then
      { config with recommended_models := ["small", "medium"],
                    max_file_size_mb := 250 }
    else
      { config with recommended_models := ["tiny", "base", "small"],
                    max_file_size_mb := 100 }
  else
    { config with recommended_models := ["tiny", "base"], max_file_size_mb := 50 }

/-! ## main.py: SRT generation -/

/-- The character content of `main.format_time_srt seconds`: hours, minutes,
seconds and milliseconds computed with Python float `//`, `%` and `int()`,
rendered as `HH:MM:SS,mmm` with two/three digit zero padding. -/
def fmtSrtChars (seconds : ℚ) : List Char :=
  let hours : ℤ := ⌊seconds / 3600⌋
  let minutes : ℤ := ⌊pymod seconds 3600 / 60⌋
  let secs : ℤ := pyint (pymod seconds 60)
  let milliseconds : ℤ := pyint (pymod seconds 1 * 1000)
  padInt 2 hours ++ ':' :: padInt 2 minutes ++ ':' :: padInt 2 secs ++
    ',' :: padInt 3 milliseconds

/-- `main.format_time_srt`. -/
def format_time_srt (seconds : ℚ) : String := ⟨fmtSrtChars seconds⟩

/-- Python `str.strip()` on the character list: drop whitespace from both
ends. -/
def stripChars (l : List Char) : List Char :=
  ((l.dropWhile Char.isWhitespace).reverse.dropWhile Char.isWhitespace).reverse

/-- Python `str.strip()`. -/
def pyStrip (s : String) : String := ⟨stripChars s.data⟩

/-- One SRT block `f"{i}\n{start} --> {end}\n{text}\n\n"` as written by the
loop body of `main.generate_srt`. -/
def srtBlock (i : Nat) (segment : Segment) : List Char :=
  natChars i ++ '\n' ::
    (fmtSrtChars segment.start ++ ' ' :: '-' :: '-' :: '>' :: ' ' ::
      fmtSrtChars segment.«end») ++ '\n' ::
    (stripChars segment.text.data ++ ['\n', '\n'])

/-- The accumulation loop of `main.generate_srt`, with the running
`enumerate(segments, 1)` counter explicit. -/
def generate_srt_aux (i : Nat) (segments : List Segment) : List Char :=
  match segments with
  | [] => []
  | segment :: rest => srtBlock i segment ++ generate_srt_aux (i + 1) rest

/-- `main.generate_srt`: concatenate the numbered blocks, starting at 1. -/
def generate_srt (segments : List Segment) : String :=
  ⟨generate_srt_aux 1 segments⟩

/-! ## An SRT parser (the reading direction of the round-trip claim)

The claim speaks of parsing the generated document back.  The grammar is the
one the specification states: blocks of exactly four lines — a 1-based
sequential index, a `HH:MM:SS,mmm --> HH:MM:SS,mmm` time line, one text line,
and a blank separator line.  Timestamps are read back as integral
milliseconds. -/

/-- Split a character list at every newline; `splitLinesAux acc l` prepends the
reversed accumulator to the first line. -/
def splitLinesAux (acc : List Char) (l : List Char) : List (List Char) :=
  match l with
  | [] => [acc.reverse]
  | c :: cs =>
    if c = '\n' then acc.reverse :: splitLinesAux [] cs
    else splitLinesAux (c :: acc) cs

/-- The lines of a character list, in the sense of `splitOn "\n"`. -/
def splitLines (l : List Char) : List (List Char) := splitLinesAux [] l

/-- True when a character list does not begin with a digit (the lookahead that
stops a number read). -/
def noDigitHead (l : List Char) : Bool :=
  match l with
  | [] => true
  | c :: _ => !c.isDigit

/-- Longest digit run at the head of a character list, with the remainder. -/
def takeDigits (l : List Char) : List Char × List Char :=
  match l with
  | [] => ([], [])
  | c :: cs =>
    if c.isDigit then
      let (d, r) := takeDigits cs
      (c :: d, r)
    else ([], c :: cs)

/-- The numeric value of a digit run. -/
def digitsVal (ds : List Char) : Nat :=
  ds.foldl (fun n c => 10 * n + (c.toNat - 48)) 0

/-- Read a decimal number at the head of a character list. -/
def readNat (l : List Char) : Option (Nat × List Char) :=
  let (ds, r) := takeDigits l
  if ds = [] then none else some (digitsVal ds, r)

/-- Read a whole line as a decimal number. -/
def readNatAll (l : List Char) : Option Nat :=
  match readNat l with
  | some (n, []) => some n
  | _ => none

/-- Read one `HH:MM:SS,mmm` timestamp, returning its value in milliseconds and
the remainder of the line. -/
def readTimestamp (l : List Char) : Option (ℤ × List Char) :=
  match readNat l with
  | some (h, ':' :: r1) =>
    match readNat r1 with
    | some (m, ':' :: r2) =>
      match readNat r2 with
      | some (s, ',' :: r3) =>
        match readNat r3 with
        | some (ms, r4) => some ((((h * 60 + m) * 60 + s) * 1000 + ms : Nat), r4)
        | none => none
      | _ => none
    | _ => none
  | _ => none

/-- Read a whole `HH:MM:SS,mmm --> HH:MM:SS,mmm` line. -/
def readTimeLine (l : List Char) : Option (ℤ × ℤ) :=
  match readTimestamp l with
  | some (a, ' ' :: '-' :: '-' :: '>' :: ' ' :: r) =>
    match readTimestamp r with
    | some (b, []) => some (a, b)
    | _ => none
  | _ => none

/-- Parse the numbered four-line blocks; `n` is the index the next block must
carry.  A document that ends cleanly leaves exactly one empty line. -/
def parseBlocks (lines : List (List Char)) (n : Nat) :
    Option (List (ℤ × ℤ × List Char)) :=
  match lines with
  | [lastLine] => if lastLine = [] then some [] else none
  | idxLine :: timeLine :: textLine :: sepLine :: rest =>
    if sepLine = [] then
      match readNatAll idxLine with
      | some i =>
        if i = n then
          match readTimeLine timeLine with
          | some (a, b) =>
            match parseBlocks rest (n + 1) with
            | some tail => some ((a, b, textLine) :: tail)
            | none => none
          | none => none
        else none
      | none => none
    else none
  | _ => none

/-- Parse an SRT document into its `(start_ms, end_ms, text)` triples,
checking the 1-based sequential numbering and the block shape. -/
def parse_srt (s : String) : Option (List (ℤ × ℤ × String)) :=
  (parseBlocks (splitLines s.data) 1).map
    (List.map (fun t => (t.1, t.2.1, (⟨t.2.2⟩ : String))))

/-! ## Remaining helper definitions used by the theorems -/

/-- The flat list of word probabilities present anywhere in the segments: the
multiset the confidence accumulation loop of `enhance_transcription_result`
ranges over. -/
def allProbs (segments : List Segment) : List ℚ :=
  (segments.map (fun s => (s.words.getD []).filterMap (fun w => w.probability))).flatten

/-- A loader stub for concrete instances: loading `"large-v2"` fails with a
CUDA error, every other size succeeds and returns its own name as handle. -/
def loadStub : String → Except String String :=
  fun s => if s = "large-v2" then Except.error "cuda out of memory" else Except.ok s
/-! ## Theorems -/

set_option maxRecDepth 8192

/-- C1 counterexample: with an accelerated device reporting 3 GB of memory —
below the 4 GB tier — `optimize_for_device` recommends `[tiny, base, small]`
with a 100 MB ceiling, not `[small, medium]` with 250 MB as the claim states
for the below-4GB tier. -/
theorem C1_counterexample :
    optimize_for_device "cuda" 3 =
      { device := "cuda", recommended_models := ["tiny", "base", "small"],
        max_file_size_mb := 100, parallel_processing := false } ∧
    (optimize_for_device "cuda" 3).recommended_models ≠ ["small", "medium"] ∧
    (optimize_for_device "cuda" 3).max_file_size_mb ≠ 250 := by
  refine ⟨?_, ?_, ?_⟩ <;> with_unfolding_all decide

/-- C1 (amended): the device capability resolver returns, on the CPU path, a
profile with `device = "cpu"`, `recommended_models = [tiny, base]` and a 50 MB
size ceiling; on the accelerated path, by memory tier: at 8 GB or more
`[medium, large-v2]` with a 500 MB ceiling and parallelism enabled, at 4 GB up
to 8 GB `[small, medium]` with a 250 MB ceiling, and below 4 GB
`[tiny, base, small]` with a 100 MB ceiling, parallelism disabled outside the
top tier. -/
theorem C1_device_profile :
    (∀ g : ℚ, optimize_for_device "cpu" g =
      { device := "cpu", recommended_models := ["tiny", "base"],
        max_file_size_mb := 50, parallel_processing := false }) ∧
    (∀ g : ℚ, optimize_for_device "cuda" g =
      if 8 ≤ g then
        { device := "cuda", recommended_models := ["medium", "large-v2"],
          max_file_size_mb := 500, parallel_processing := true }
      else if 4 ≤ g then
        { device := "cuda", recommended_models := ["small", "medium"],
          max_file_size_mb := 250, parallel_processing := false }
      else
        { device := "cuda", recommended_models := ["tiny", "base", "small"],
          max_file_size_mb := 100, parallel_processing := false }) := by
  constructor
  · intro g
    simp [optimize_for_device]
  · intro g
    by_cases h8 : 8 ≤ g <;> by_cases h4 : 4 ≤ g <;>
      simp [optimize_for_device, h8, h4]

/-- C8: for every preset name that is not one of `fast`, `balanced`,
`high_quality`, the preset resolution used by `transcribe_audio` silently
yields the `balanced` parameter bundle, and `validate_advanced_options`
likewise replaces the unknown name by `"balanced"`; neither raises an
error. -/
theorem C8_unknown_preset (name : String)
    (h : name ∉ ["fast", "balanced", "high_quality"]) :
    preset_config { quality_preset := some name } = balancedPreset ∧
    (validate_advanced_options { quality_preset := some name }).quality_preset
      = "balanced" := by
  simp only [List.mem_cons, List.mem_singleton, not_or] at h
  obtain ⟨h1, h2, h3⟩ := h
  constructor
  · simp [preset_config, QUALITY_PRESETS, h1, h2, h3]
  · simp [validate_advanced_options, h1, h2, h3]

/-- C8 witness: the unknown preset name `"turbo"` resolves to the balanced
bundle. -/
theorem C8_witness :
    preset_config { quality_preset := some "turbo" } = balancedPreset ∧
    (validate_advanced_options { quality_preset := some "turbo" }).quality_preset
      = "balanced" :=
  C8_unknown_preset "turbo" (by decide)

/-- C6 counterexample: when loading `"tiny"` itself fails with the loader's
error `"disk full"`, `load_whisper_model` re-raises that very error; the
propagated error does not name the attempted model (no `ModelLoadError` type
exists in the code). -/
theorem C6_counterexample :
    load_whisper_model (fun _ => (Except.error "disk full" : Except String Unit)) "tiny"
      = Except.error "disk full" ∧
    ¬ "tiny".data <:+: "disk full".data := by
  exact ⟨rfl, by decide⟩

/-- C6 (amended): when loading the requested model fails, `load_whisper_model`
performs exactly one retry with `"tiny"` and returns that call's outcome
(handle or error) unless the request already was `"tiny"`, in which case the
original load exception propagates unchanged to the caller. -/
theorem C6_fallback {α : Type} (load : String → Except String α)
    (model_size : String) (e : String) (h : load model_size = Except.error e) :
    load_whisper_model load model_size =
      if model_size = "tiny" then Except.error e else load "tiny" := by
  unfold load_whisper_model
  rw [h]
  by_cases hs : model_size = "tiny" <;> simp [hs]

/-- C6 witness: a loader that fails on `"large-v2"` makes
`load_whisper_model` return the `"tiny"` fallback handle. -/
theorem C6_witness : load_whisper_model loadStub "large-v2" = Except.ok "tiny" := by
  have h := C6_fallback loadStub "large-v2" "cuda out of memory" rfl
  rw [h]
  rfl

/-- C3 counterexample: for an empty segment list the enriched result's
`audio_duration` key is absent (`none`), not present with value `0` as the
claim states. -/
theorem C3_counterexample :
    (enhance_transcription_result ⟨some []⟩ 1 {}).audio_duration ≠ some 0 ∧
    (enhance_transcription_result ⟨some []⟩ 1 {}).audio_duration = none := by
  constructor <;> with_unfolding_all decide

/-- C3 (amended): when the raw transcript's segment list is empty, the
enriched result omits `audio_duration` (so its defaulted lookup reads 0),
omits `processing_speed_ratio`, and the audio characteristics keep the
defaults `speech_rate = "normal"` and `has_silence = false`. -/
theorem C3_empty_segments (processing_time : ℚ)
    (advanced_options : AdvancedOptions) :
    (enhance_transcription_result ⟨some []⟩ processing_time advanced_options).audio_duration = none ∧
    (enhance_transcription_result ⟨some []⟩ processing_time advanced_options).audio_duration.getD 0 = 0 ∧
    (enhance_transcription_result ⟨some []⟩ processing_time advanced_options).processing_speed_ratio = none ∧
    (enhance_transcription_result ⟨some []⟩ processing_time advanced_options).audio_characteristics.speech_rate = "normal" ∧
    (enhance_transcription_result ⟨some []⟩ processing_time advanced_options).audio_characteristics.has_silence = false := by
  simp [enhance_transcription_result, sumCount, analyze_audio_characteristics,
    filter_segments_by_confidence]

/-- C7: in the enriched result, `processing_speed_ratio` equals
`processing_time / audio_duration` and `realtime_factor` is its reciprocal,
and both fields are omitted (`none`) whenever the effective `audio_duration`
is not positive — in particular when it is 0 — so the guarded division by
zero is never executed. -/
theorem C7_speed_metrics (result : RawResult) (processing_time : ℚ)
    (advanced_options : AdvancedOptions) :
    (enhance_transcription_result result processing_time advanced_options).processing_speed_ratio
      = (if 0 < (enhance_transcription_result result processing_time advanced_options).audio_duration.getD 0
         then some (processing_time / (enhance_transcription_result result processing_time advanced_options).audio_duration.getD 0)
         else none) ∧
    (enhance_transcription_result result processing_time advanced_options).realtime_factor
      = (if 0 < (enhance_transcription_result result processing_time advanced_options).audio_duration.getD 0
         then some ((processing_time / (enhance_transcription_result result processing_time advanced_options).audio_duration.getD 0)⁻¹)
         else none) := by
  obtain ⟨segments⟩ := result
  match segments with
  | none => simp [enhance_transcription_result]
  | some segs =>
    simp only [enhance_transcription_result]
    constructor
    · trivial
    · by_cases had : 0 < (segs.getLast?.map (fun s => s.«end»)).getD 0 <;>
        simp [had, inv_div, div_eq_mul_inv]

/-- The recursion of `filter_segments_by_confidence` is the annotated
subsequence: filter by the confidence test, then write the computed confidence
into each survivor. -/
theorem filter_segments_eq (segments : List Segment) (t : ℚ) :
    filter_segments_by_confidence segments t =
      (segments.filter (fun s => decide (t ≤ segmentConfidence s))).map
        (fun s => { s with confidence := some (segmentConfidence s) }) := by
  induction segments with
  | nil => rfl
  | cons s rest ih =>
    by_cases h : t ≤ segmentConfidence s <;>
      simp [filter_segments_by_confidence, ge_iff_le, h, ih]

/-- C5 (amended): with `confidence_threshold = 0` the enriched segment list
is the original list unchanged and no filtered count is recorded; with a
positive threshold it is exactly the subsequence, in original order, of
segments whose confidence (mean of the segment's own word probabilities,
default 0.5 without words) meets the threshold — each kept segment annotated
with its computed confidence — with `filtered_segments_count` the number kept,
which never exceeds the original number of segments. -/
theorem C5_segment_filtering (result : RawResult) (processing_time : ℚ)
    (advanced_options : AdvancedOptions) (segs : List Segment)
    (h : result.segments = some segs) :
    (enhance_transcription_result result processing_time advanced_options).segments
      = some (if 0 < advanced_options.confidence_threshold.getD 0 then
          (segs.filter
            (fun s => decide (advanced_options.confidence_threshold.getD 0 ≤ segmentConfidence s))).map
            (fun s => { s with confidence := some (segmentConfidence s) })
        else segs) ∧
    (enhance_transcription_result result processing_time advanced_options).filtered_segments_count
      = (if 0 < advanced_options.confidence_threshold.getD 0 then
          some ((segs.filter
            (fun s => decide (advanced_options.confidence_threshold.getD 0 ≤ segmentConfidence s))).length)
        else none) ∧
    (enhance_transcription_result result processing_time advanced_options).filtered_segments_count.getD 0
      ≤ segs.length := by
  obtain ⟨segments⟩ := result
  simp only at h
  subst h
  by_cases hct : 0 < advanced_options.confidence_threshold.getD 0
  · simp only [enhance_transcription_result, hct, if_true, filter_segments_eq]
    refine ⟨trivial, by simp, ?_⟩
    simp only [Option.getD_some, List.length_map]
    exact List.length_filter_le _ _
  · simp [enhance_transcription_result, hct]

/-- C5 counterexample: a kept segment comes back with its `confidence` key
filled in, so the filtered list is not exactly the original subsequence. -/
theorem C5_counterexample :
    (enhance_transcription_result
        ⟨some [{start := 0, «end» := 2, text := "a",
                words := some [{probability := some (9/10)}]}]⟩
        1 {confidence_threshold := some (1/2)}).segments
      ≠ some [{start := 0, «end» := 2, text := "a",
               words := some [{probability := some (9/10)}]}] ∧
    (enhance_transcription_result
        ⟨some [{start := 0, «end» := 2, text := "a",
                words := some [{probability := some (9/10)}]}]⟩
        1 {confidence_threshold := some (1/2)}).segments
      = some [{start := 0, «end» := 2, text := "a",
               words := some [{probability := some (9/10)}],
               confidence := some (9/10)}] := by
  constructor <;> with_unfolding_all decide

/-- C5 witness: one segment with word probability 0.9 against threshold 0.75
is kept, annotated, and counted. -/
theorem C5_witness :
    (enhance_transcription_result
        ⟨some [{start := 0, «end» := 2, text := "a",
                words := some [{probability := some (9/10)}]}]⟩
        2 {confidence_threshold := some (3/4)}).segments
      = some [{start := 0, «end» := 2, text := "a",
               words := some [{probability := some (9/10)}],
               confidence := some (9/10)}] ∧
    (enhance_transcription_result
        ⟨some [{start := 0, «end» := 2, text := "a",
                words := some [{probability := some (9/10)}]}]⟩
        2 {confidence_threshold := some (3/4)}).filtered_segments_count = some 1 ∧
    (enhance_transcription_result
        ⟨some [{start := 0, «end» := 2, text := "a",
                words := some [{probability := some (9/10)}]}]⟩
        2 {confidence_threshold := some (3/4)}).filtered_segments_count.getD 0 ≤ 1 := by
  obtain ⟨h1, h2, h3⟩ := C5_segment_filtering
    ⟨some [{start := 0, «end» := 2, text := "a",
            words := some [{probability := some (9/10)}]}]⟩
    2 {confidence_threshold := some (3/4)}
    [{start := 0, «end» := 2, text := "a",
      words := some [{probability := some (9/10)}]}] rfl
  refine ⟨h1.trans (by with_unfolding_all decide),
          h2.trans (by with_unfolding_all decide), by simpa using h3⟩

/-- The inner word loop of `sumCount` adds the present probabilities and their
count to the accumulator. -/
theorem sumCount_inner (ws : List Word) (a : ℚ × Nat) :
    ws.foldl
      (fun acc2 word =>
        match word.probability with
        | some p => (acc2.1 + p, acc2.2 + 1)
        | none => acc2) a
    = (a.1 + (ws.filterMap (fun w => w.probability)).sum,
       a.2 + (ws.filterMap (fun w => w.probability)).length) := by
  induction ws generalizing a with
  | nil => simp
  | cons w rest ih =>
    cases hw : w.probability with
    | none => simp [List.filterMap_cons, hw, ih]
    | some p =>
      simp only [List.foldl_cons, hw, ih, List.filterMap_cons, List.sum_cons,
        List.length_cons, Prod.mk.injEq]
      constructor
      · ring
      · omega

/-- `sumCount` computes the sum and the number of all present word
probabilities. -/
theorem sumCount_eq (segments : List Segment) :
    sumCount segments = ((allProbs segments).sum, (allProbs segments).length) := by
  suffices h : ∀ a : ℚ × Nat,
      segments.foldl
        (fun acc segment =>
          match segment.words with
          | some words =>
            words.foldl
              (fun acc2 word =>
                match word.probability with
                | some p => (acc2.1 + p, acc2.2 + 1)
                | none => acc2) acc
          | none => acc) a
      = (a.1 + (allProbs segments).sum, a.2 + (allProbs segments).length) by
    simpa [sumCount] using h (0, 0)
  induction segments with
  | nil => intro a; simp [allProbs]
  | cons s rest ih =>
    intro a
    rw [List.foldl_cons, ih]
    cases hs : s.words with
    | none =>
      simp [allProbs, hs]
    | some ws =>
      simp only [hs, sumCount_inner, allProbs, List.map_cons, List.flatten_cons,
        List.sum_append, List.length_append, Option.getD_some, Prod.mk.injEq]
      constructor
      · ring
      · omega

/-- Every element of `allProbs` is a probability some word carries. -/
theorem mem_allProbs {p : ℚ} {segments : List Segment}
    (hp : p ∈ allProbs segments) :
    ∃ s ∈ segments, ∃ ws, s.words = some ws ∧ ∃ w ∈ ws, w.probability = some p := by
  simp only [allProbs, List.mem_flatten, List.mem_map] at hp
  obtain ⟨l, ⟨s, hs, rfl⟩, hpl⟩ := hp
  cases hw : s.words with
  | none => rw [hw] at hpl; simp at hpl
  | some ws =>
    rw [hw] at hpl
    simp only [Option.getD_some, List.mem_filterMap] at hpl
    obtain ⟨w, hwmem, hwp⟩ := hpl
    exact ⟨s, hs, ws, hw, w, hwmem, hwp⟩

/-- The `average_confidence` field of the enriched result, in closed form. -/
theorem average_confidence_eq (segs : List Segment) (processing_time : ℚ)
    (advanced_options : AdvancedOptions) :
    (enhance_transcription_result ⟨some segs⟩ processing_time advanced_options).average_confidence
      = some (if 0 < (allProbs segs).length then
          (allProbs segs).sum / ((allProbs segs).length : ℚ) else 1/2) := by
  simp only [enhance_transcription_result, sumCount_eq]

/-- C4: for every raw transcript whose word probabilities all lie in
`[0, 1]`, the enriched result's `average_confidence` lies in `[0, 1]`; and
when no word-level probabilities exist anywhere in the segments it equals
exactly 0.5. -/
theorem C4_average_confidence (result : RawResult) (processing_time : ℚ)
    (advanced_options : AdvancedOptions) (segs : List Segment)
    (h : result.segments = some segs)
    (hp : ∀ s ∈ segs, ∀ ws, s.words = some ws → ∀ w ∈ ws, ∀ p,
      w.probability = some p → 0 ≤ p ∧ p ≤ 1) :
    (∃ c, (enhance_transcription_result result processing_time advanced_options).average_confidence
        = some c ∧ 0 ≤ c ∧ c ≤ 1) ∧
    ((∀ s ∈ segs, ∀ ws, s.words = some ws → ∀ w ∈ ws, w.probability = none) →
      (enhance_transcription_result result processing_time advanced_options).average_confidence
        = some (1/2)) := by
  obtain ⟨segments⟩ := result
  simp only at h
  subst h
  have hbound : ∀ p ∈ allProbs segs, 0 ≤ p ∧ p ≤ 1 := by
    intro p hmem
    obtain ⟨s, hs, ws, hws, w, hw, hwp⟩ := mem_allProbs hmem
    exact hp s hs ws hws w hw p hwp
  constructor
  · refine ⟨_, average_confidence_eq segs processing_time advanced_options, ?_, ?_⟩
    · by_cases hlen : 0 < (allProbs segs).length
      · simp only [hlen, if_true]
        exact div_nonneg (List.sum_nonneg fun p hp' => (hbound p hp').1)
          (by positivity)
      · norm_num [hlen]
    · by_cases hlen : 0 < (allProbs segs).length
      · simp only [hlen, if_true]
        rw [div_le_one (by exact_mod_cast hlen)]
        calc (allProbs segs).sum
            ≤ (allProbs segs).length • (1 : ℚ) :=
              List.sum_le_card_nsmul _ _ fun p hp' => (hbound p hp').2
          _ = ((allProbs segs).length : ℚ) := by simp
      · norm_num [hlen]
  · intro hnone
    have hempty : allProbs segs = [] := by
      simp only [allProbs, List.flatten_eq_nil_iff]
      intro l hl
      simp only [List.mem_map] at hl
      obtain ⟨s, hs, rfl⟩ := hl
      cases hw : s.words with
      | none => simp
      | some ws =>
        simp only [Option.getD_some, List.filterMap_eq_nil_iff]
        exact fun w hwmem => hnone s hs ws hw w hwmem
    rw [average_confidence_eq, hempty]
    simp

/-- C4 witness: a transcript with one word carrying no probability gets
`average_confidence = 0.5`, inside `[0, 1]`. -/
theorem C4_witness :
    (∃ c, (enhance_transcription_result
        ⟨some [{start := 0, «end» := 1, text := "x", words := some [{}]}]⟩
        1 {}).average_confidence = some c ∧ 0 ≤ c ∧ c ≤ 1) ∧
    (enhance_transcription_result
        ⟨some [{start := 0, «end» := 1, text := "x", words := some [{}]}]⟩
        1 {}).average_confidence = some (1/2) := by
  have hp : ∀ s ∈ [({start := 0, «end» := 1, text := "x", words := some [{}]} : Segment)],
      ∀ ws, s.words = some ws → ∀ w ∈ ws, ∀ p, w.probability = some p →
        0 ≤ p ∧ p ≤ 1 := by
    simp
  have hnone : ∀ s ∈ [({start := 0, «end» := 1, text := "x", words := some [{}]} : Segment)],
      ∀ ws, s.words = some ws → ∀ w ∈ ws, w.probability = none := by
    simp
  have h := C4_average_confidence
    ⟨some [{start := 0, «end» := 1, text := "x", words := some [{}]}]⟩ 1 {}
    [{start := 0, «end» := 1, text := "x", words := some [{}]}] rfl hp
  exact ⟨h.1, h.2 hnone⟩

/-- C9: every present, named upload whose size is between 1 KB and 500 MB
inclusive, whose MIME type (if provided) is in the supported set and whose
extension (if present) is in the supported set, validates with
`valid = true`. -/
theorem C9_valid_file (f : UploadedFile)
    (hname : f.name ≠ "")
    (hmin : 1024 ≤ f.size) (hmax : f.size ≤ 500 * 1024 * 1024)
    (hmime : f.type.getD "" = "" ∨ f.type.getD "" ∈ supported_mime_types)
    (hext : pyLower (pySuffix f.name) = "" ∨
      pyLower (pySuffix f.name) ∈ supported_extensions) :
    validate_audio_file (some f) = { valid := true, error := none } := by
  have hkb : ¬ (f.size / 1024 < MIN_FILE_SIZE_KB) := by
    rw [MIN_FILE_SIZE_KB, not_lt, le_div_iff₀ (by norm_num)]
    linarith
  have hmb : ¬ (MAX_FILE_SIZE_MB < f.size / (1024 * 1024)) := by
    rw [MAX_FILE_SIZE_MB, not_lt, div_le_iff₀ (by norm_num)]
    linarith
  have hmime' : ¬ (f.type.getD "" ≠ "" ∧ f.type.getD "" ∉ supported_mime_types) := by
    rcases hmime with h | h <;> simp [h]
  have hext' : ¬ (pyLower (pySuffix f.name) ≠ "" ∧
      pyLower (pySuffix f.name) ∉ supported_extensions) := by
    rcases hext with h | h <;> simp [h]
  have hsec : pyLower (pySuffix f.name) ∉ blocked_extensions := by
    rcases hext with h | h
    · rw [h]; decide
    · intro hb
      have hdisj : ∀ x ∈ supported_extensions, x ∉ blocked_extensions := by decide
      exact hdisj _ h hb
  simp [validate_audio_file, hname, hkb, hmb, hmime', hext', hsec]

/-- C9 witness: a 2 KB `a.mp3` with MIME `audio/mpeg` validates. -/
theorem C9_witness :
    validate_audio_file (some ⟨"a.mp3", 2048, some "audio/mpeg"⟩)
      = { valid := true, error := none } := by
  refine C9_valid_file ⟨"a.mp3", 2048, some "audio/mpeg"⟩ (by decide)
    (by norm_num) (by norm_num) (Or.inr (by decide)) (Or.inr (by decide))

/-- A string with a fixed prefix differs from any string whose first `n`
characters differ from that prefix. -/
theorem ne_of_take_ne (p m t : String) (n : Nat) (hn : n ≤ p.data.length)
    (hne : p.data.take n ≠ t.data.take n) : p ++ m ≠ t := by
  intro he
  apply hne
  have hd : p.data ++ m.data = t.data := by rw [← String.data_append, he]
  rw [← hd, List.take_append_of_le_length hn]

/-- C10: `validate_audio_file` never returns its security-specific denylist
error — every executable-like extension is already rejected by the earlier
supported-extension check, so the security branch is unreachable. -/
theorem C10_security_branch_unreachable (uploaded_file : Option UploadedFile) :
    (validate_audio_file uploaded_file).error ≠
      some "Tipo de arquivo não permitido por segurança" := by
  match uploaded_file with
  | none => decide
  | some f =>
    simp only [validate_audio_file]
    split
    · decide
    split
    · decide
    split
    · decide
    split
    · exact fun he => ne_of_take_ne "Tipo de arquivo não suportado: " _ _ 21
        (by decide) (by decide) (Option.some.inj he)
    split
    · exact fun he => ne_of_take_ne "Extensão não suportada: " _ _ 1
        (by decide) (by decide) (Option.some.inj he)
    next hext =>
      split
      · next hsec =>
        have hforce : ∀ x ∈ blocked_extensions,
            x ≠ "" ∧ x ∉ supported_extensions := by decide
        obtain ⟨hne, hnotsup⟩ := hforce _ hsec
        push_neg at hext
        exact absurd (hext hne) hnotsup
      · simp

/-! ### Decimal rendering round-trips -/

/-- Digit characters are digits. -/
theorem digitChar_isDigit {d : Nat} (h : d < 10) : (digitChar d).isDigit = true :=
  (by decide : ∀ d < 10, (digitChar d).isDigit = true) d h

/-- Digit characters carry their value. -/
theorem digitChar_val {d : Nat} (h : d < 10) : (digitChar d).toNat - 48 = d :=
  (by decide : ∀ d < 10, (digitChar d).toNat - 48 = d) d h

/-- Every character of `natChars n` is a digit. -/
theorem natChars_all_digits (n : Nat) : ∀ c ∈ natChars n, c.isDigit = true := by
  induction n using Nat.strong_induction_on with
  | _ n ih =>
    rw [natChars]
    split
    · next h =>
      intro c hc
      simp only [List.mem_singleton] at hc
      subst hc
      exact digitChar_isDigit h
    · next h =>
      intro c hc
      rcases List.mem_append.mp hc with h1 | h1
      · exact ih (n / 10) (Nat.div_lt_self (by omega) (by omega)) c h1
      · simp only [List.mem_singleton] at h1
        subst h1
        exact digitChar_isDigit (Nat.mod_lt _ (by omega))

/-- `natChars` never returns the empty list. -/
theorem natChars_ne_nil (n : Nat) : natChars n ≠ [] := by
  rw [natChars]
  split <;> simp

/-- `digitsVal` over a final digit. -/
theorem digitsVal_snoc (l : List Char) (c : Char) :
    digitsVal (l ++ [c]) = 10 * digitsVal l + (c.toNat - 48) := by
  simp [digitsVal, List.foldl_append]

/-- The decimal rendering evaluates back to the number. -/
theorem digitsVal_natChars (n : Nat) : digitsVal (natChars n) = n := by
  induction n using Nat.strong_induction_on with
  | _ n ih =>
    rw [natChars]
    split
    · next h =>
      show digitsVal ([] ++ [digitChar n]) = n
      rw [digitsVal_snoc, digitChar_val h]
      simp [digitsVal]
    · next h =>
      rw [digitsVal_snoc, ih (n / 10) (Nat.div_lt_self (by omega) (by omega)),
        digitChar_val (Nat.mod_lt _ (by omega))]
      omega

/-- A leading `'0'` does not change the value. -/
theorem digitsVal_cons_zero (l : List Char) : digitsVal ('0' :: l) = digitsVal l := by
  show List.foldl _ (10 * 0 + ('0'.toNat - 48)) l = List.foldl _ 0 l
  congr 1

/-- Leading zero padding does not change the value. -/
theorem digitsVal_replicate_append (k : Nat) (l : List Char) :
    digitsVal (List.replicate k '0' ++ l) = digitsVal l := by
  induction k with
  | zero => simp
  | succ k ih => simpa [List.replicate_succ, digitsVal_cons_zero] using ih

/-- The padded rendering evaluates back to the number. -/
theorem digitsVal_padNat (w n : Nat) : digitsVal (padNat w n) = n := by
  rw [padNat, digitsVal_replicate_append, digitsVal_natChars]

/-- Every character of `padNat` is a digit. -/
theorem padNat_all_digits (w n : Nat) : ∀ c ∈ padNat w n, c.isDigit = true := by
  intro c hc
  rcases List.mem_append.mp hc with h | h
  · rw [List.eq_of_mem_replicate h]; decide
  · exact natChars_all_digits n c h

/-- `padNat` never returns the empty list. -/
theorem padNat_ne_nil (w n : Nat) : padNat w n ≠ [] := by
  simp [padNat, natChars_ne_nil]

/-- `padNat 0` is the bare rendering. -/
theorem padNat_zero (n : Nat) : padNat 0 n = natChars n := by
  simp [padNat]

/-- A nonnegative integer is padded through `padNat`. -/
theorem padInt_of_nonneg {n : ℤ} (h : 0 ≤ n) (w : Nat) :
    padInt w n = padNat w n.natAbs := by
  rw [padInt, if_neg (not_lt.mpr h)]

/-- `takeDigits` splits a digit run from a non-digit continuation. -/
theorem takeDigits_append (d r : List Char) (hd : ∀ c ∈ d, c.isDigit = true)
    (hr : noDigitHead r = true) : takeDigits (d ++ r) = (d, r) := by
  induction d with
  | nil =>
    simp only [List.nil_append]
    cases r with
    | nil => rfl
    | cons c cs =>
      simp only [noDigitHead, Bool.not_eq_true'] at hr
      simp [takeDigits, hr]
  | cons c cs ih =>
    have hc : c.isDigit = true := hd c (by simp)
    simp [takeDigits, hc, ih (fun x hx => hd x (by simp [hx]))]

/-- Reading a padded number from a non-digit continuation. -/
theorem readNat_pad (w n : Nat) (r : List Char) (hr : noDigitHead r = true) :
    readNat (padNat w n ++ r) = some (n, r) := by
  rw [readNat, takeDigits_append _ _ (padNat_all_digits w n) hr]
  simp [padNat_ne_nil, digitsVal_padNat]

/-- Reading back a bare rendering consumes the whole line. -/
theorem readNatAll_natChars (n : Nat) : readNatAll (natChars n) = some n := by
  have h := readNat_pad 0 n [] rfl
  rw [padNat_zero, List.append_nil] at h
  rw [readNatAll, h]

/-! ### Timestamp arithmetic -/

/-- Python `%` by a positive modulus is nonnegative. -/
theorem pymod_nonneg (a : ℚ) {b : ℚ} (hb : 0 < b) : 0 ≤ pymod a b := by
  rw [pymod]
  have h := Int.floor_le (a / b)
  have h2 : b * ((⌊a / b⌋ : ℚ)) ≤ b * (a / b) := by
    exact mul_le_mul_of_nonneg_left h hb.le
  have h3 : b * (a / b) = a := by field_simp
  linarith

/-- Python `%` by a positive modulus is below the modulus. -/
theorem pymod_lt (a : ℚ) {b : ℚ} (hb : 0 < b) : pymod a b < b := by
  rw [pymod]
  have h := Int.lt_floor_add_one (a / b)
  have h2 : b * (a / b) < b * ((⌊a / b⌋ : ℚ) + 1) := by
    exact mul_lt_mul_of_pos_left h hb
  have h3 : b * (a / b) = a := by field_simp
  nlinarith

/-- `int()` is the floor on nonnegative input. -/
theorem pyint_of_nonneg {q : ℚ} (h : 0 ≤ q) : pyint q = ⌊q⌋ :=
  if_neg (not_lt.mpr h)

/-- The rendered hour/minute/second/millisecond components reassemble to the
total millisecond count, truncated. -/
theorem srt_components_value (s : ℚ) :
    ((⌊s / 3600⌋ * 60 + ⌊pymod s 3600 / 60⌋) * 60 + ⌊pymod s 60⌋) * 1000 +
      ⌊pymod s 1 * 1000⌋ = ⌊1000 * s⌋ := by
  have hA : ⌊pymod s 3600 / 60⌋ = ⌊s / 60⌋ - 60 * ⌊s / 3600⌋ := by
    have h : pymod s 3600 / 60 = s / 60 - ((60 * ⌊s / 3600⌋ : ℤ) : ℚ) := by
      rw [pymod]
      push_cast
      ring
    rw [h, Int.floor_sub_int]
  have hB : ⌊pymod s 60⌋ = ⌊s⌋ - 60 * ⌊s / 60⌋ := by
    have h : pymod s 60 = s - ((60 * ⌊s / 60⌋ : ℤ) : ℚ) := by
      rw [pymod]
      push_cast
      ring
    rw [h, Int.floor_sub_int]
  have hC : ⌊pymod s 1 * 1000⌋ = ⌊1000 * s⌋ - 1000 * ⌊s⌋ := by
    have h : pymod s 1 * 1000 = 1000 * s - ((1000 * ⌊s⌋ : ℤ) : ℚ) := by
      rw [pymod]
      push_cast
      rw [div_one]
      ring
    rw [h, Int.floor_sub_int]
  rw [hA, hB, hC]
  ring

/-- A list headed by a non-digit stops a number read. -/
theorem noDigitHead_cons {c : Char} (h : c.isDigit = false) (r : List Char) :
    noDigitHead (c :: r) = true := by
  simp [noDigitHead, h]

/-- Reading back one rendered timestamp from any non-digit continuation. -/
theorem readTimestamp_fmt (s : ℚ) (hs : 0 ≤ s) (r : List Char)
    (hr : noDigitHead r = true) :
    readTimestamp (fmtSrtChars s ++ r) = some (⌊1000 * s⌋, r) := by
  have hh : (0 : ℤ) ≤ ⌊s / 3600⌋ :=
    Int.floor_nonneg.mpr (div_nonneg hs (by norm_num))
  have hm : (0 : ℤ) ≤ ⌊pymod s 3600 / 60⌋ :=
    Int.floor_nonneg.mpr (div_nonneg (pymod_nonneg s (by norm_num)) (by norm_num))
  have hsec0 : (0 : ℚ) ≤ pymod s 60 := pymod_nonneg s (by norm_num)
  have hms0 : (0 : ℚ) ≤ pymod s 1 * 1000 :=
    mul_nonneg (pymod_nonneg s (by norm_num)) (by norm_num)
  have hsec : (0 : ℤ) ≤ ⌊pymod s 60⌋ := Int.floor_nonneg.mpr hsec0
  have hms : (0 : ℤ) ≤ ⌊pymod s 1 * 1000⌋ := Int.floor_nonneg.mpr hms0
  have hfmt : fmtSrtChars s =
      padNat 2 (⌊s / 3600⌋).natAbs ++
        ':' :: (padNat 2 (⌊pymod s 3600 / 60⌋).natAbs ++
          ':' :: (padNat 2 (⌊pymod s 60⌋).natAbs ++
            ',' :: padNat 3 (⌊pymod s 1 * 1000⌋).natAbs)) := by
    rw [fmtSrtChars, pyint_of_nonneg hsec0, pyint_of_nonneg hms0,
      padInt_of_nonneg hh, padInt_of_nonneg hm, padInt_of_nonneg hsec,
      padInt_of_nonneg hms]
    simp [List.append_assoc]
  rw [hfmt]
  rw [readTimestamp]
  simp only [List.append_assoc, List.cons_append, List.nil_append]
  rw [readNat_pad 2 _ _ (noDigitHead_cons (by decide) _)]
  simp only []
  rw [readNat_pad 2 _ _ (noDigitHead_cons (by decide) _)]
  simp only []
  rw [readNat_pad 2 _ _ (noDigitHead_cons (by decide) _)]
  simp only []
  rw [readNat_pad 3 _ _ hr]
  simp only []
  congr 1
  refine Prod.ext ?_ rfl
  show ((((⌊s / 3600⌋.natAbs * 60 + ⌊pymod s 3600 / 60⌋.natAbs) * 60 +
      ⌊pymod s 60⌋.natAbs) * 1000 + ⌊pymod s 1 * 1000⌋.natAbs : Nat) : ℤ)
    = ⌊1000 * s⌋
  push_cast [Int.natAbs_of_nonneg hh, Int.natAbs_of_nonneg hm,
    Int.natAbs_of_nonneg hsec, Int.natAbs_of_nonneg hms]
  exact srt_components_value s

/-- Reading back a whole generated time line. -/
theorem readTimeLine_fmt (a b : ℚ) (ha : 0 ≤ a) (hb : 0 ≤ b) :
    readTimeLine (fmtSrtChars a ++ ' ' :: '-' :: '-' :: '>' :: ' ' :: fmtSrtChars b)
      = some (⌊1000 * a⌋, ⌊1000 * b⌋) := by
  rw [readTimeLine, readTimestamp_fmt a ha _ (noDigitHead_cons (by decide) _)]
  simp only []
  have h2 := readTimestamp_fmt b hb [] rfl
  rw [List.append_nil] at h2
  rw [h2]

/-- Digits are not newlines. -/
theorem ne_nl_of_digit {c : Char} (h : c.isDigit = true) : c ≠ '\n' := by
  intro hc
  subst hc
  exact absurd h (by decide)

/-- `natChars` contains no newline. -/
theorem nl_not_mem_natChars (n : Nat) : '\n' ∉ natChars n := fun h =>
  ne_nl_of_digit (natChars_all_digits n _ h) rfl

/-- `padInt` contains only digits and the minus sign. -/
theorem padInt_mem (w : Nat) (n : ℤ) :
    ∀ c ∈ padInt w n, c.isDigit = true ∨ c = '-' := by
  intro c hc
  rw [padInt] at hc
  split at hc
  · rcases List.mem_cons.mp hc with h | h
    · exact Or.inr h
    · exact Or.inl (padNat_all_digits _ _ c h)
  · exact Or.inl (padNat_all_digits _ _ c hc)

/-- No character of `padInt` is a newline. -/
theorem nl_not_mem_padInt (w : Nat) (n : ℤ) : '\n' ∉ padInt w n := by
  intro h
  rcases padInt_mem w n _ h with h1 | h1
  · exact ne_nl_of_digit h1 rfl
  · exact absurd h1 (by decide)

/-- A rendered timestamp contains no newline. -/
theorem nl_not_mem_fmtSrtChars (s : ℚ) : '\n' ∉ fmtSrtChars s := by
  intro h
  rw [fmtSrtChars] at h
  rcases List.mem_append.mp h with h | h
  · rcases List.mem_append.mp h with h | h
    · rcases List.mem_append.mp h with h | h
      · exact nl_not_mem_padInt _ _ h
      · rcases List.mem_cons.mp h with h | h
        · exact absurd h (by decide)
        · exact nl_not_mem_padInt _ _ h
    · rcases List.mem_cons.mp h with h | h
      · exact absurd h (by decide)
      · exact nl_not_mem_padInt _ _ h
  · rcases List.mem_cons.mp h with h | h
    · exact absurd h (by decide)
    · exact nl_not_mem_padInt _ _ h

/-- The whole generated time line contains no newline. -/
theorem nl_not_mem_timeline (a b : ℚ) :
    '\n' ∉ (fmtSrtChars a ++ ' ' :: '-' :: '-' :: '>' :: ' ' :: fmtSrtChars b) := by
  intro h
  rcases List.mem_append.mp h with h | h
  · exact nl_not_mem_fmtSrtChars a h
  · simp only [List.mem_cons] at h
    rcases h with h | h | h | h | h | h
    · exact absurd h (by decide)
    · exact absurd h (by decide)
    · exact absurd h (by decide)
    · exact absurd h (by decide)
    · exact absurd h (by decide)
    · exact nl_not_mem_fmtSrtChars b h

/-! ### Splitting the generated document into lines -/

/-- Scanning past a newline emits the accumulated line. -/
theorem splitLinesAux_newline (acc r : List Char) :
    splitLinesAux acc ('\n' :: r) = acc.reverse :: splitLinesAux [] r := by
  simp [splitLinesAux]

/-- Scanning past an ordinary character extends the accumulator. -/
theorem splitLinesAux_char {c : Char} (hc : c ≠ '\n') (acc r : List Char) :
    splitLinesAux acc (c :: r) = splitLinesAux (c :: acc) r := by
  simp [splitLinesAux, hc]

/-- Scanning past a newline-free chunk moves it into the accumulator. -/
theorem splitLinesAux_chunk (l : List Char) (hnl : '\n' ∉ l) :
    ∀ acc r, splitLinesAux acc (l ++ r) = splitLinesAux (l.reverse ++ acc) r := by
  induction l with
  | nil => intro acc r; simp
  | cons c cs ih =>
    intro acc r
    have hc : c ≠ '\n' := fun h => hnl (by simp [h])
    rw [List.cons_append, splitLinesAux_char hc,
      ih (fun h => hnl (by simp [h])) (c :: acc) r]
    simp

/-- Splitting one generated block off the document gives its four lines. -/
theorem splitLines_srtBlock (n : Nat) (seg : Segment) (tail : List Char)
    (htext : '\n' ∉ stripChars seg.text.data) :
    splitLines (srtBlock n seg ++ tail)
      = natChars n ::
        (fmtSrtChars seg.start ++ ' ' :: '-' :: '-' :: '>' :: ' ' ::
          fmtSrtChars seg.«end») ::
        stripChars seg.text.data :: [] :: splitLines tail := by
  rw [splitLines, srtBlock]
  simp only [List.append_assoc, List.cons_append, List.nil_append]
  rw [splitLinesAux_chunk _ (nl_not_mem_natChars n), splitLinesAux_newline,
    splitLinesAux_chunk _ (nl_not_mem_fmtSrtChars seg.start),
    splitLinesAux_char (show (' ' : Char) ≠ '\n' by decide),
    splitLinesAux_char (show ('-' : Char) ≠ '\n' by decide),
    splitLinesAux_char (show ('-' : Char) ≠ '\n' by decide),
    splitLinesAux_char (show ('>' : Char) ≠ '\n' by decide),
    splitLinesAux_char (show (' ' : Char) ≠ '\n' by decide),
    splitLinesAux_chunk _ (nl_not_mem_fmtSrtChars seg.«end»), splitLinesAux_newline,
    splitLinesAux_chunk _ htext, splitLinesAux_newline, splitLinesAux_newline]
  simp [splitLines, List.reverse_append, List.append_assoc]

/-- Parsing the tail of the generated document starting at index `n`. -/
theorem parseBlocks_generate (segs : List Segment) (n : Nat)
    (ht : ∀ seg ∈ segs, 0 ≤ seg.start ∧ 0 ≤ seg.«end»)
    (htext : ∀ seg ∈ segs, '\n' ∉ stripChars seg.text.data) :
    parseBlocks (splitLines (generate_srt_aux n segs)) n
      = some (segs.map (fun seg =>
          (⌊1000 * seg.start⌋, ⌊1000 * seg.«end»⌋, stripChars seg.text.data))) := by
  induction segs generalizing n with
  | nil => rfl
  | cons seg rest ih =>
    obtain ⟨h1, h2⟩ := ht seg (List.mem_cons_self _ _)
    rw [generate_srt_aux,
      splitLines_srtBlock n seg _ (htext seg (List.mem_cons_self _ _)),
      parseBlocks]
    simp only [if_pos rfl]
    rw [readNatAll_natChars]
    simp only [if_pos rfl]
    rw [readTimeLine_fmt seg.start seg.«end» h1 h2]
    simp only []
    rw [ih (n + 1) (fun s hs => ht s (List.mem_cons_of_mem _ hs))
      (fun s hs => htext s (List.mem_cons_of_mem _ hs))]
    simp

/-- C2 (amended): for every list of segments with nonnegative times whose
stripped texts contain no newline, parsing the SRT document produced by
`generate_srt` yields, in order and with 1-based sequential block numbering,
the triples of start and end timestamps truncated (not rounded) to
millisecond granularity together with the text stripped of leading and
trailing whitespace. -/
theorem C2_srt_roundtrip (segments : List Segment)
    (ht : ∀ seg ∈ segments, 0 ≤ seg.start ∧ 0 ≤ seg.«end»)
    (htext : ∀ seg ∈ segments, '\n' ∉ stripChars seg.text.data) :
    parse_srt (generate_srt segments)
      = some (segments.map (fun seg =>
          (⌊1000 * seg.start⌋, ⌊1000 * seg.«end»⌋, pyStrip seg.text))) := by
  rw [parse_srt, generate_srt]
  show (parseBlocks (splitLines (generate_srt_aux 1 segments)) 1).map _ = _
  rw [parseBlocks_generate segments 1 ht htext]
  simp [pyStrip, Function.comp]

/-- C2 witness: a single segment from 1.5 s to 2 s round-trips to
`(1500, 2000, "ok")`. -/
theorem C2_witness :
    parse_srt (generate_srt [{start := 3/2, «end» := 2, text := "ok"}])
      = some [(1500, 2000, "ok")] := by
  have h := C2_srt_roundtrip [{start := 3/2, «end» := 2, text := "ok"}]
    (by intro seg hseg; simp at hseg; subst hseg;
        constructor <;> with_unfolding_all decide)
    (by intro seg hseg; simp at hseg; subst hseg; with_unfolding_all decide)
  rw [h]
  with_unfolding_all decide

/-- C2 counterexample: the segment text `" hi "` comes back from the
round-trip as `"hi"`, not as the original text — `generate_srt` strips the
text, so the parsed triples do not equal the input triples. -/
theorem C2_counterexample :
    parse_srt (generate_srt [{start := 0, «end» := 1, text := " hi "}])
      = some [(0, 1000, "hi")] ∧ (" hi " : String) ≠ "hi" := by
  constructor
  · with_unfolding_all decide
  · decide
